import Mathlib

/-!
Verification of the `practice-socket` epoll reactor.

A shallow embedding of the two source files of the repository:

* `src/epoll.rs` — the typed wrapper around Linux `epoll` (the spec's
  *Multiplexer* and *ReadinessSet*): flag constants, the `add`/`delete`
  bookkeeping as seen by the kernel interest list, the descriptor tag
  round-trip through the kernel `u64` field, and the post-processing that
  `wait` applies to the kernel-filled event buffer.
* `src/main.rs` — the reactor loop (`main`): the connection table
  (`HashMap<RawFd, ClientData>`) and the per-event loop body with its
  accept / read / teardown branches.

Machine integers are modelled as `Nat`/`Int` with explicit two's-complement
casts where the source casts (`i32 as u64`, `u64 as i32`).  Fallible calls
(`?`-propagation) are modelled by an explicit result type; a Rust `unwrap()`
on `None` is modelled as a distinguished `panic` outcome.  Kernel behaviour
(what `accept`, `read`, `epoll_wait` return) enters as explicit oracle data.
-/

namespace PracticeSocket

/-! ## ReadinessSet: the `EventFlags` bitflags of `src/epoll.rs`

Numeric values are the Linux `libc` constants referenced by the source
(`libc::EPOLLIN as u32`, ...). -/

def EPOLLIN : Nat := 0x001
def EPOLLPRI : Nat := 0x002
def EPOLLOUT : Nat := 0x004
def EPOLLERR : Nat := 0x008
def EPOLLHUP : Nat := 0x010
def EPOLLRDHUP : Nat := 0x2000
def EPOLLEXCLUSIVE : Nat := 0x10000000
def EPOLLWAKEUP : Nat := 0x20000000
def EPOLLONESHOT : Nat := 0x40000000
def EPOLLET : Nat := 0x80000000

/-- The union of all documented flag bits: the `all()` mask that the
`bitflags!` macro derives for `EventFlags` in `src/epoll.rs`. -/
def allFlags : Nat :=
  EPOLLIN ||| EPOLLPRI ||| EPOLLOUT ||| EPOLLERR ||| EPOLLHUP |||
  EPOLLRDHUP ||| EPOLLEXCLUSIVE ||| EPOLLWAKEUP ||| EPOLLONESHOT ||| EPOLLET

/-- Rust's `EventFlags::from_bits_truncate` as generated by `bitflags!`:
keep the documented bits, drop every unknown bit.  Used in
`Epoll::wait` (`src/epoll.rs` line 146) to decode the kernel word. -/
def from_bits_truncate (w : Nat) : Nat := w &&& allFlags

/-- Containment `EventFlags::contains(self, other)`: `self` holds every bit of `other`
(`bitflags!` containment). -/
def containsFlag (s b : Nat) : Bool := s &&& b == b

/-! ## Descriptor tag round-trip (`Epoll::add` / `Epoll::wait`)

`Epoll::add` stores `fd.as_raw_fd() as u64` in the kernel event's `u64`
field; `Epoll::wait` recovers `e.u64 as RawFd` (`RawFd = i32`). -/

/-- Rust's `i32 as u64` cast: the two's-complement 64-bit representative.
This is the tag value `Epoll::add` stores with the kernel
(`src/epoll.rs` line 125). -/
def i32AsU64 (x : Int) : Nat := (x % (2 : Int) ^ 64).toNat

/-- Rust's `u64 as i32` cast: truncate to 32 bits and reinterpret as
signed.  This is how `Epoll::wait` recovers the descriptor from the
kernel tag (`src/epoll.rs` line 146). -/
def u64AsI32 (n : Nat) : Int :=
  if n % 2 ^ 32 < 2 ^ 31 then ((n % 2 ^ 32 : Nat) : Int)
  else ((n % 2 ^ 32 : Nat) : Int) - 2 ^ 32

/-! ## `Epoll::wait` post-processing

`wait` resizes the reusable buffer to exactly 1024 zeroed slots, calls
`epoll_wait(.., buf.len() = 1024, ..)`, and on success maps
`self.events[0..event_len]` through the decoding above.  The kernel's
side of the call is oracle data: either an error, or the number of
filled slots together with the buffer contents after the call. -/

/-- One `libc::epoll_event` record: a `u32` flags word and a `u64` tag. -/
structure RawEpollEvent where
  events : Nat
  u64 : Nat
  deriving DecidableEq, Repr

/-- The `Event` struct of `src/epoll.rs`: recovered descriptor plus
decoded flags. -/
structure Event where
  fd : Int
  flags : Nat
  deriving DecidableEq, Repr

/-- Decoding of one filled buffer slot, as in the `map` closure of
`Epoll::wait`: `Event { fd: e.u64 as RawFd, flags: EventFlags::from_bits_truncate(e.events) }`. -/
def decodeEvent (e : RawEpollEvent) : Event :=
  { fd := u64AsI32 e.u64, flags := from_bits_truncate e.events }

/-- The fixed capacity of the reusable event buffer
(`Vec::with_capacity(1024)` in `Epoll::create`, `resize(1024, ..)` in
`Epoll::wait`). -/
def waitBufferCap : Nat := 1024

/-- The wrapper `Epoll::wait`: given the kernel outcome (`.error` for a failed
`epoll_wait`, otherwise the returned `event_len` and the buffer contents
after the call), produce the batch `self.events[0..event_len].map(decode)`.
The buffer the code hands to the kernel always has length 1024. -/
def Epoll.wait (k : Except Unit (Nat × List RawEpollEvent)) :
    Except Unit (List Event) :=
  match k with
  | .error e => .error e
  | .ok (eventLen, buf) => .ok ((buf.take eventLen).map decodeEvent)

/-! ## The reactor loop of `src/main.rs`

`main` owns a `HashMap<RawFd, ClientData>` connection table and one epoll
instance; for each event of a `wait` batch it runs three sequential
branches: accept (listener event, with `continue`), bounded read
(`EPOLLIN`), and teardown (`EPOLLHUP`/`EPOLLRDHUP`).

Modelling decisions, all from the source:
* the table is an association list with `HashMap` lookup/insert/remove
  semantics, keyed by the raw descriptor;
* a `TcpStream` is modelled by the sequence of bytes the peer has sent
  that the process has not yet consumed, so a `read` into a fresh
  zero-filled 1024-byte buffer takes a prefix of that sequence;
* the kernel interest list is a `Finset Int` of registered descriptors;
  `epoll_ctl` duplicate-add and missing-delete failures follow the
  kernel contract the source relies on (`epoll.add(..)?`,
  `epoll.delete(..)?` propagate them);
* what the kernel returns for one `accept` and one `read` call is oracle
  data supplied per loop-body execution;
* `?`-propagation out of `main` is the `fatalErr` outcome and an
  `unwrap()` on `None` is the `panicked` outcome — in both cases the
  loop body does not complete. -/

/-- A peer `SocketAddr`, opaque to the core: (ip, port). -/
abbrev Addr := Nat × Nat

/-- The `ClientData` struct of `src/main.rs`: the stream (modelled by its
unconsumed incoming bytes) and the peer address. -/
structure ClientData where
  incoming : List Nat
  addr : Addr
  deriving DecidableEq, Repr

/-- Lookup, as `HashMap::get` on the connection table. -/
def lookupKey (m : List (Int × ClientData)) (k : Int) : Option ClientData :=
  (m.find? (fun p => p.1 == k)).map Prod.snd

/-- Removal of a key, as `HashMap::remove` leaves the table. -/
def eraseKey (m : List (Int × ClientData)) (k : Int) :
    List (Int × ClientData) :=
  m.filter (fun p => p.1 != k)

/-- Insertion, as `HashMap::insert`: the key maps to the new value afterwards. -/
def insertKey (m : List (Int × ClientData)) (k : Int) (v : ClientData) :
    List (Int × ClientData) :=
  (k, v) :: eraseKey m k

/-- The set of descriptor keys of the connection table. -/
def keysFinset (m : List (Int × ClientData)) : Finset Int :=
  (m.map Prod.fst).toFinset

/-- Kernel interest-list semantics of `epoll_ctl(EPOLL_CTL_ADD)` as relied
on by `Epoll::add` and its `?`-propagation in `main`: adding an already
registered descriptor fails (`EEXIST`), otherwise the descriptor joins
the interest list.  The flags argument does not affect membership. -/
def epollAdd (reg : Finset Int) (fd : Int) (flags : Nat) :
    Except Unit (Finset Int) :=
  if fd ∈ reg then .error () else .ok (insert fd reg)

/-- Kernel interest-list semantics of `epoll_ctl(EPOLL_CTL_DEL)` as relied
on by `Epoll::delete`: deleting a descriptor that is not registered fails
(`ENOENT`), otherwise it leaves the interest list. -/
def epollDelete (reg : Finset Int) (fd : Int) : Except Unit (Finset Int) :=
  if fd ∈ reg then .ok (reg.erase fd) else .error ()

/-- The flags `main` registers every accepted connection with:
`EPOLLIN | EPOLLET | EPOLLHUP | EPOLLRDHUP`. -/
def clientFlags : Nat := EPOLLIN ||| EPOLLET ||| EPOLLHUP ||| EPOLLRDHUP

/-- The state owned by the reactor loop: the connection table `clients`
and the descriptors currently on the epoll interest list. -/
structure LoopState where
  clients : List (Int × ClientData)
  registered : Finset Int
  deriving DecidableEq

/-- Outcome of running the loop body on one event: normal completion,
a `?`-propagated error terminating `main`, or an `unwrap()` panic. -/
inductive BodyResult (α : Type) where
  | ok (a : α)
  | fatalErr
  | panicked
  deriving DecidableEq, Repr

/-- Observable side effects of the loop body, in emission order:
connection-established notification, bytes handed to the read
collaborator (the full buffer passed to `String::from_utf8_lossy`),
and connection teardown. -/
inductive Action where
  | accepted (fd : Int) (addr : Addr)
  | delivered (fd : Int) (bytes : List Nat)
  | teardown (fd : Int)
  deriving DecidableEq, Repr

/-- Kernel-side outcomes consumed by one loop-body execution: the result
of `listener.accept()` (on success: the fresh descriptor, the peer
address, and that stream's incoming bytes), whether
`client.stream.read(..)` fails, and how many bytes that read delivers
(capped by the 1024-byte buffer and by the bytes available). -/
structure Oracle where
  acceptRes : Except Unit (Int × Addr × List Nat)
  readErr : Bool
  readLen : Nat

/-- The listener branch of the loop body (`src/main.rs` lines 25–31):
`let (stream, addr) = listener.accept()?;` then
`epoll.add(&stream, ..)?;` then `clients.insert(..)`. -/
def acceptBranch (s : LoopState) (o : Oracle) :
    BodyResult (LoopState × List Action) :=
  match o.acceptRes with
  | .error _ => .fatalErr
  | .ok (fd, addr, incoming) =>
    match epollAdd s.registered fd clientFlags with
    | .error _ => .fatalErr
    | .ok reg =>
      .ok ({ clients := insertKey s.clients fd ⟨incoming, addr⟩,
             registered := reg },
           [Action.accepted fd addr])

/-- The number of bytes one successful `read` into the 1024-byte buffer
consumes from the stream: the kernel-chosen count, capped by the buffer
size and by the bytes available on this connection's stream. -/
def readCount (o : Oracle) (c : ClientData) : Nat :=
  min o.readLen (min 1024 c.incoming.length)

/-- The contents of the fresh `vec![0u8; 1024]` buffer after one
successful `read`: the bytes read from this connection's stream as a
prefix, the untouched zero fill after them.  This whole buffer is what
`main` hands to `String::from_utf8_lossy`. -/
def readBuffer (o : Oracle) (c : ClientData) : List Nat :=
  c.incoming.take (readCount o c) ++ List.replicate (1024 - readCount o c) 0

/-- The readable branch (`src/main.rs` lines 33–38): on `EPOLLIN`, look
up the connection (`unwrap`), allocate a fresh zero-filled 1024-byte
buffer, perform one bounded read (`?` on failure), and hand the whole
buffer to the read collaborator (`println!` with
`String::from_utf8_lossy(&buffer)`). -/
def readBranch (s : LoopState) (ev : Event) (o : Oracle) :
    BodyResult (LoopState × List Action) :=
  if containsFlag ev.flags EPOLLIN then
    match lookupKey s.clients ev.fd with
    | none => .panicked
    | some c =>
      if o.readErr then .fatalErr
      else
        .ok ({ s with clients := insertKey s.clients ev.fd ⟨c.incoming.drop (readCount o c), c.addr⟩ },
             [Action.delivered ev.fd (readBuffer o c)])
  else .ok (s, [])

/-- The guard of the hangup branch (`src/main.rs` line 40):
`event.flags.contains(EPOLLHUP) || event.flags.contains(EPOLLRDHUP)`. -/
def hangupFlag (flags : Nat) : Bool :=
  containsFlag flags EPOLLHUP || containsFlag flags EPOLLRDHUP

/-- The hangup branch (`src/main.rs` lines 40–46): on `EPOLLHUP` or
`EPOLLRDHUP`, look up the connection (`unwrap`), then
`epoll.delete(&event.fd)?` and `clients.remove(&event.fd)`. -/
def hupBranch (s : LoopState) (ev : Event) (tr : List Action) :
    BodyResult (LoopState × List Action) :=
  if hangupFlag ev.flags then
    match lookupKey s.clients ev.fd with
    | none => .panicked
    | some _ =>
      match epollDelete s.registered ev.fd with
      | .error _ => .fatalErr
      | .ok reg =>
        .ok ({ clients := eraseKey s.clients ev.fd, registered := reg },
             tr ++ [Action.teardown ev.fd])
  else .ok (s, tr)

/-- The body of the reactor loop for one event of a `wait` batch
(`src/main.rs` lines 24–47): the listener branch ends with `continue`;
otherwise the readable branch and then the hangup branch run in
sequence on the same event. -/
def loopBody (listenerFd : Int) (s : LoopState) (ev : Event) (o : Oracle) :
    BodyResult (LoopState × List Action) :=
  if ev.fd = listenerFd then acceptBranch s o
  else
    match readBranch s ev o with
    | .ok (s1, tr1) => hupBranch s1 ev tr1
    | .fatalErr => .fatalErr
    | .panicked => .panicked

/-- The connection-table/registry co-invariant of spec §3: the listening
descriptor is registered, and the table's key set equals the registered
set minus the listening descriptor. -/
def tableRegistryInv (listenerFd : Int) (s : LoopState) : Prop :=
  listenerFd ∈ s.registered ∧
  keysFinset s.clients = s.registered.erase listenerFd

/-! ### Association-list table lemmas -/

theorem mem_keysFinset {m : List (Int × ClientData)} {k : Int} :
    k ∈ keysFinset m ↔ ∃ c, (k, c) ∈ m := by
  constructor
  · intro h
    rcases List.mem_map.mp (List.mem_toFinset.mp h) with ⟨⟨a, c⟩, hm, hk⟩
    exact ⟨c, by simpa [← hk] using hm⟩
  · rintro ⟨c, hm⟩
    exact List.mem_toFinset.mpr (List.mem_map.mpr ⟨(k, c), hm, rfl⟩)

theorem keys_eraseKey (m : List (Int × ClientData)) (k : Int) :
    keysFinset (eraseKey m k) = (keysFinset m).erase k := by
  ext x
  simp only [mem_keysFinset, eraseKey, List.mem_filter, Finset.mem_erase,
    bne_iff_ne, ne_eq]
  constructor
  · rintro ⟨c, hm, hne⟩; exact ⟨hne, c, hm⟩
  · rintro ⟨hne, c, hm⟩; exact ⟨c, hm, hne⟩

theorem keys_insertKey (m : List (Int × ClientData)) (k : Int) (v : ClientData) :
    keysFinset (insertKey m k v) = insert k (keysFinset m) := by
  have h1 : keysFinset (insertKey m k v) =
      insert k (keysFinset (eraseKey m k)) := by
    ext x
    simp only [mem_keysFinset, insertKey, List.mem_cons, Finset.mem_insert,
      Prod.mk.injEq]
    constructor
    · rintro ⟨c, ⟨hk, _⟩ | hm⟩
      · exact Or.inl hk
      · exact Or.inr ⟨c, hm⟩
    · rintro (rfl | ⟨c, hm⟩)
      · exact ⟨v, Or.inl ⟨rfl, rfl⟩⟩
      · exact ⟨c, Or.inr hm⟩
  rw [h1, keys_eraseKey]
  ext x
  simp only [Finset.mem_insert, Finset.mem_erase, ne_eq]
  tauto

theorem lookupKey_eq_none_iff (m : List (Int × ClientData)) (k : Int) :
    lookupKey m k = none ↔ k ∉ keysFinset m := by
  induction m with
  | nil => simp [lookupKey, mem_keysFinset]
  | cons p m ih =>
    by_cases h : p.1 = k
    · have hk : k ∈ keysFinset (p :: m) :=
        mem_keysFinset.mpr ⟨p.2, by cases p; simp_all⟩
      rw [lookupKey, List.find?_cons_of_pos _ (by simp [h])]
      simp [hk]
    · rw [lookupKey, List.find?_cons_of_neg _ (by simp [h])]
      have hmem : k ∈ keysFinset (p :: m) ↔ k ∈ keysFinset m := by
        simp only [mem_keysFinset, List.mem_cons]
        constructor
        · rintro ⟨c, hc | hc⟩
          · cases p; simp_all
          · exact ⟨c, hc⟩
        · rintro ⟨c, hc⟩; exact ⟨c, Or.inr hc⟩
      rw [show Option.map Prod.snd (List.find? (fun p => p.1 == k) m) =
        lookupKey m k from rfl, ih, hmem]

theorem lookupKey_isSome_of_mem {m : List (Int × ClientData)} {k : Int}
    (h : k ∈ keysFinset m) : ∃ c, lookupKey m k = some c := by
  cases hc : lookupKey m k with
  | none => exact absurd h ((lookupKey_eq_none_iff m k).mp hc)
  | some c => exact ⟨c, rfl⟩

theorem mem_keys_of_lookupKey {m : List (Int × ClientData)} {k : Int}
    {c : ClientData} (h : lookupKey m k = some c) : k ∈ keysFinset m := by
  by_contra hnot
  rw [← lookupKey_eq_none_iff m k] at hnot
  simp [hnot] at h

theorem lookupKey_insertKey_self (m : List (Int × ClientData)) (k : Int)
    (v : ClientData) : lookupKey (insertKey m k v) k = some v := by
  rw [insertKey, lookupKey, List.find?_cons_of_pos _ (by simp)]
  rfl

theorem find?_filter_ne (m : List (Int × ClientData)) {k k' : Int}
    (h : k' ≠ k) :
    (m.filter (fun p => p.1 != k)).find? (fun p => p.1 == k') =
      m.find? (fun p => p.1 == k') := by
  induction m with
  | nil => rfl
  | cons p m ih =>
    by_cases hp : p.1 = k
    · rw [List.filter_cons_of_neg (by simp [hp]), ih,
        List.find?_cons_of_neg _ (by simp only [hp, beq_iff_eq]; exact Ne.symm h)]
    · rw [List.filter_cons_of_pos (by simp [hp])]
      by_cases hp' : p.1 = k'
      · rw [List.find?_cons_of_pos _ (by simp [hp']),
          List.find?_cons_of_pos _ (by simp [hp'])]
      · rw [List.find?_cons_of_neg _ (by simp [hp']),
          List.find?_cons_of_neg _ (by simp [hp']), ih]

theorem lookupKey_eraseKey_ne (m : List (Int × ClientData)) {k k' : Int}
    (h : k' ≠ k) : lookupKey (eraseKey m k) k' = lookupKey m k' := by
  simp only [lookupKey, eraseKey]
  rw [find?_filter_ne m h]

theorem lookupKey_insertKey_ne (m : List (Int × ClientData)) {k k' : Int}
    (v : ClientData) (h : k' ≠ k) :
    lookupKey (insertKey m k v) k' = lookupKey m k' := by
  have h1 : lookupKey ((k, v) :: eraseKey m k) k' = lookupKey (eraseKey m k) k' := by
    simp only [lookupKey]
    rw [List.find?_cons_of_neg _ (by simp [Ne.symm h])]
  rw [insertKey, h1, lookupKey_eraseKey_ne m h]

/-! ### Branch inversion lemmas -/

theorem acceptBranch_ok {s : LoopState} {o : Oracle} {s' : LoopState}
    {tr : List Action} (h : acceptBranch s o = .ok (s', tr)) :
    ∃ fd addr incoming, o.acceptRes = .ok (fd, addr, incoming) ∧
      fd ∉ s.registered ∧
      s' = { clients := insertKey s.clients fd ⟨incoming, addr⟩,
             registered := insert fd s.registered } ∧
      tr = [Action.accepted fd addr] := by
  unfold acceptBranch at h
  cases hacc : o.acceptRes with
  | error e => simp only [hacc] at h; cases h
  | ok v =>
    obtain ⟨fd, addr, incoming⟩ := v
    simp only [hacc, epollAdd] at h
    by_cases hreg : fd ∈ s.registered
    · simp only [if_pos hreg] at h; cases h
    · simp only [if_neg hreg] at h
      cases h
      exact ⟨fd, addr, incoming, rfl, hreg, rfl, rfl⟩

theorem readBranch_ok {s : LoopState} {ev : Event} {o : Oracle}
    {s1 : LoopState} {tr1 : List Action}
    (h : readBranch s ev o = .ok (s1, tr1)) :
    (containsFlag ev.flags EPOLLIN = false ∧ s1 = s ∧ tr1 = []) ∨
    (∃ c, containsFlag ev.flags EPOLLIN = true ∧
      lookupKey s.clients ev.fd = some c ∧ o.readErr = false ∧
      s1 = { s with clients := insertKey s.clients ev.fd ⟨c.incoming.drop (readCount o c), c.addr⟩ } ∧
      tr1 = [Action.delivered ev.fd (readBuffer o c)]) := by
  unfold readBranch at h
  by_cases hin : containsFlag ev.flags EPOLLIN
  · rw [if_pos hin] at h
    cases hc : lookupKey s.clients ev.fd with
    | none => simp only [hc] at h; cases h
    | some c =>
      simp only [hc] at h
      by_cases herr : o.readErr
      · simp only [if_pos herr] at h; cases h
      · simp only [if_neg herr] at h
        cases h
        exact Or.inr ⟨c, hin, rfl, by simpa using herr, rfl, rfl⟩
  · rw [if_neg hin] at h
    cases h
    exact Or.inl ⟨by simpa using hin, rfl, rfl⟩

theorem hupBranch_ok {s1 : LoopState} {ev : Event} {tr1 : List Action}
    {s' : LoopState} {tr' : List Action}
    (h : hupBranch s1 ev tr1 = .ok (s', tr')) :
    (hangupFlag ev.flags = false ∧ s' = s1 ∧ tr' = tr1) ∨
    (hangupFlag ev.flags = true ∧
      (∃ c, lookupKey s1.clients ev.fd = some c) ∧ ev.fd ∈ s1.registered ∧
      s' = { clients := eraseKey s1.clients ev.fd,
             registered := s1.registered.erase ev.fd } ∧
      tr' = tr1 ++ [Action.teardown ev.fd]) := by
  unfold hupBranch at h
  by_cases hhup : hangupFlag ev.flags
  · rw [if_pos hhup] at h
    cases hc : lookupKey s1.clients ev.fd with
    | none => simp only [hc] at h; cases h
    | some c =>
      simp only [hc, epollDelete] at h
      by_cases hreg : ev.fd ∈ s1.registered
      · simp only [if_pos hreg] at h
        cases h
        exact Or.inr ⟨hhup, ⟨c, rfl⟩, hreg, rfl, rfl⟩
      · simp only [if_neg hreg] at h; cases h
  · rw [if_neg hhup] at h
    cases h
    exact Or.inl ⟨by simpa using hhup, rfl, rfl⟩

/-- A successfully completing readable branch never changes the key set
of the table or the registered set. -/
theorem readBranch_ok_state {s : LoopState} {ev : Event} {o : Oracle}
    {s1 : LoopState} {tr1 : List Action}
    (h : readBranch s ev o = .ok (s1, tr1)) :
    keysFinset s1.clients = keysFinset s.clients ∧
    s1.registered = s.registered := by
  rcases readBranch_ok h with ⟨_, rfl, _⟩ | ⟨c, _, hc, _, rfl, _⟩
  · exact ⟨rfl, rfl⟩
  · refine ⟨?_, rfl⟩
    rw [keys_insertKey]
    exact Finset.insert_eq_self.mpr (mem_keys_of_lookupKey hc)

theorem readBranch_ne_panicked {s : LoopState} {ev : Event} {o : Oracle}
    (hmem : ev.fd ∈ keysFinset s.clients) :
    readBranch s ev o ≠ .panicked := by
  unfold readBranch
  obtain ⟨c, hc⟩ := lookupKey_isSome_of_mem hmem
  by_cases hin : containsFlag ev.flags EPOLLIN
  · rw [if_pos hin]
    simp only [hc]
    by_cases herr : o.readErr
    · simp only [if_pos herr]; intro hcontra; cases hcontra
    · simp only [if_neg herr]; intro hcontra; cases hcontra
  · rw [if_neg hin]; intro hcontra; cases hcontra

/-- Inversion of `acceptBranch` when the accept's result is known. -/
theorem acceptBranch_ok_of_res {s : LoopState} {o : Oracle} {s' : LoopState}
    {tr : List Action} {fd : Int} {addr : Addr} {incoming : List Nat}
    (hacc : o.acceptRes = .ok (fd, addr, incoming))
    (h : acceptBranch s o = .ok (s', tr)) :
    fd ∉ s.registered ∧
    s' = { clients := insertKey s.clients fd ⟨incoming, addr⟩,
           registered := insert fd s.registered } ∧
    tr = [Action.accepted fd addr] := by
  unfold acceptBranch at h
  simp only [hacc, epollAdd] at h
  by_cases hreg : fd ∈ s.registered
  · simp only [if_pos hreg] at h; cases h
  · simp only [if_neg hreg] at h
    cases h
    exact ⟨hreg, rfl, rfl⟩

theorem hupBranch_ne_panicked {s1 : LoopState} {ev : Event} {tr1 : List Action}
    (hmem : ev.fd ∈ keysFinset s1.clients) :
    hupBranch s1 ev tr1 ≠ .panicked := by
  unfold hupBranch
  obtain ⟨c, hc⟩ := lookupKey_isSome_of_mem hmem
  by_cases hhup : hangupFlag ev.flags
  · rw [if_pos hhup]
    simp only [hc, epollDelete]
    by_cases hreg : ev.fd ∈ s1.registered
    · simp only [if_pos hreg]; intro hcontra; cases hcontra
    · simp only [if_neg hreg]; intro hcontra; cases hcontra
  · rw [if_neg hhup]; intro hcontra; cases hcontra

end PracticeSocket

open PracticeSocket

/-- C1 — For every event processed by the reactor loop body, if the
connection-table/registry co-invariant (table keys = registered
descriptors minus the listening descriptor) holds before the body runs
and the body completes normally for that event, the co-invariant holds
afterwards: accept inserts into the table together with registration,
and teardown erases from the table together with deregistration. -/
theorem loop_body_preserves_co_invariant (l : Int) (s : LoopState)
    (ev : Event) (o : Oracle) (s' : LoopState) (tr : List Action)
    (hinv : tableRegistryInv l s)
    (hok : loopBody l s ev o = .ok (s', tr)) :
    tableRegistryInv l s' := by
  obtain ⟨hl, hkeys⟩ := hinv
  unfold loopBody at hok
  by_cases hfd : ev.fd = l
  · rw [if_pos hfd] at hok
    obtain ⟨fd, addr, incoming, hacc, hreg, rfl, rfl⟩ := acceptBranch_ok hok
    have hfdl : fd ≠ l := fun h => hreg (h ▸ hl)
    refine ⟨Finset.mem_insert_of_mem hl, ?_⟩
    show keysFinset (insertKey s.clients fd ⟨incoming, addr⟩) =
      (insert fd s.registered).erase l
    rw [keys_insertKey, hkeys, Finset.erase_insert_of_ne hfdl]
  · rw [if_neg hfd] at hok
    cases hr : readBranch s ev o with
    | fatalErr => simp only [hr] at hok; cases hok
    | panicked => simp only [hr] at hok; cases hok
    | ok p =>
      obtain ⟨s1, tr1⟩ := p
      simp only [hr] at hok
      obtain ⟨hk1, hr1⟩ := readBranch_ok_state hr
      rcases hupBranch_ok hok with ⟨_, rfl, _⟩ | ⟨_, _, _, rfl, _⟩
      · exact ⟨hr1 ▸ hl, by rw [hk1, hkeys, hr1]⟩
      · refine ⟨?_, ?_⟩
        · show l ∈ s1.registered.erase ev.fd
          exact Finset.mem_erase.mpr ⟨Ne.symm hfd, hr1 ▸ hl⟩
        · show keysFinset (eraseKey s1.clients ev.fd) =
            (s1.registered.erase ev.fd).erase l
          rw [keys_eraseKey, hk1, hkeys, hr1, Finset.erase_right_comm]

/-- Witness for `loop_body_preserves_co_invariant`: one accept event on
listener descriptor 3 yields a state that still satisfies the
co-invariant. -/
theorem loop_body_preserves_co_invariant_witness :
    tableRegistryInv 3
      { clients := [((4 : Int), ⟨[], (1, 2)⟩)], registered := insert 4 {3} } :=
  loop_body_preserves_co_invariant 3 { clients := [], registered := {3} }
    ⟨3, EPOLLIN⟩ ⟨.ok (4, (1, 2), []), false, 0⟩
    { clients := [((4 : Int), ⟨[], (1, 2)⟩)], registered := insert 4 {3} }
    [Action.accepted 4 (1, 2)] ⟨by decide, by decide⟩ (by decide)

/-- C3 (counterexample to the claim as stated) — On an event for the
listening descriptor whose non-blocking accept fails, the loop body does
NOT treat the failure as a no-op: `listener.accept()?` propagates the
error and the loop terminates fatally instead of continuing with the
state unchanged. -/
theorem accept_failure_fatal_cex :
    loopBody 3 { clients := [], registered := {3} } ⟨3, EPOLLIN⟩
      ⟨.error (), false, 0⟩ = .fatalErr ∧
    BodyResult.fatalErr ≠
      BodyResult.ok ({ clients := [], registered := {3} : LoopState},
        ([] : List Action)) :=
  ⟨rfl, by decide⟩

/-- C3 (amended) — For every event on the listening descriptor, if
the non-blocking accept fails, the loop body neither registers a new
connection nor modifies the table; instead the error propagates out of
the loop (`listener.accept()?`), terminating the reactor fatally. -/
theorem accept_failure_propagates (l : Int) (s : LoopState) (ev : Event)
    (o : Oracle) (e : Unit) (hfd : ev.fd = l)
    (hacc : o.acceptRes = .error e) :
    loopBody l s ev o = .fatalErr := by
  unfold loopBody
  rw [if_pos hfd]
  unfold acceptBranch
  rw [hacc]

/-- Witness for `accept_failure_propagates` at a concrete failed
accept. -/
theorem accept_failure_propagates_witness :
    loopBody 3 { clients := [], registered := {3} } ⟨3, 0⟩
      ⟨.error (), false, 0⟩ = .fatalErr :=
  accept_failure_propagates 3 { clients := [], registered := {3} } ⟨3, 0⟩
    ⟨.error (), false, 0⟩ () rfl rfl

/-- C5 — For every non-listener event carrying both a readable flag
and a hangup/peer-half-close flag, the loop body that completes normally
evaluates the readable branch before the teardown branch: the emitted
trace is exactly one delivery followed by the teardown of the same
descriptor. -/
theorem read_before_teardown (l : Int) (s : LoopState) (ev : Event)
    (o : Oracle) (s' : LoopState) (tr : List Action) (hne : ev.fd ≠ l)
    (hin : containsFlag ev.flags EPOLLIN = true)
    (hhup : hangupFlag ev.flags = true)
    (hok : loopBody l s ev o = .ok (s', tr)) :
    ∃ bytes, tr = [Action.delivered ev.fd bytes, Action.teardown ev.fd] := by
  unfold loopBody at hok
  rw [if_neg hne] at hok
  cases hr : readBranch s ev o with
  | fatalErr => simp only [hr] at hok; cases hok
  | panicked => simp only [hr] at hok; cases hok
  | ok p =>
    obtain ⟨s1, tr1⟩ := p
    simp only [hr] at hok
    rcases readBranch_ok hr with ⟨hnoin, _, _⟩ | ⟨c, _, _, _, _, rfl⟩
    · rw [hin] at hnoin; cases hnoin
    · rcases hupBranch_ok hok with ⟨hnohup, _, _⟩ | ⟨_, _, _, _, rfl⟩
      · rw [hhup] at hnohup; cases hnohup
      · exact ⟨readBuffer o c, rfl⟩

/-- Witness for `read_before_teardown`: an event with flags
`EPOLLIN | EPOLLHUP` (= 17) delivers the read bytes first and then tears
the connection down. -/
theorem read_before_teardown_witness :
    ∃ bytes,
      [Action.delivered 5 ([7] ++ List.replicate 1023 0), Action.teardown 5] =
        [Action.delivered (5 : Int) bytes, Action.teardown 5] :=
  read_before_teardown 3
    { clients := [((5 : Int), ⟨[7], (1, 2)⟩)], registered := {3, 5} }
    ⟨5, 17⟩ ⟨.ok (0, (0, 0), []), false, 1⟩
    { clients := [], registered := ({3, 5} : Finset Int).erase 5 }
    [Action.delivered 5 ([7] ++ List.replicate 1023 0), Action.teardown 5]
    (by decide) (by decide) (by decide) (by rfl)

/-- C9 — For every non-listener event whose descriptor is registered
with the Multiplexer, the connection-table/registry co-invariant makes
both table lookups of the loop body succeed, so the `unwrap()` panic
(the fatal failure branch of the lookup) is unreachable. -/
theorem lookup_never_panics (l : Int) (s : LoopState) (ev : Event)
    (o : Oracle) (hinv : tableRegistryInv l s) (hne : ev.fd ≠ l)
    (hreg : ev.fd ∈ s.registered) :
    loopBody l s ev o ≠ .panicked := by
  obtain ⟨hl, hkeys⟩ := hinv
  have hmem : ev.fd ∈ keysFinset s.clients := by
    rw [hkeys]; exact Finset.mem_erase.mpr ⟨hne, hreg⟩
  unfold loopBody
  rw [if_neg hne]
  cases hr : readBranch s ev o with
  | fatalErr => intro hcontra; cases hcontra
  | panicked => exact absurd hr (readBranch_ne_panicked hmem)
  | ok p =>
    obtain ⟨s1, tr1⟩ := p
    have hmem1 : ev.fd ∈ keysFinset s1.clients := by
      rw [(readBranch_ok_state hr).1]; exact hmem
    exact hupBranch_ne_panicked hmem1

/-- Witness for `lookup_never_panics` at a concrete registered
connection. -/
theorem lookup_never_panics_witness :
    loopBody 3 { clients := [((5 : Int), ⟨[], (1, 2)⟩)], registered := {3, 5} }
      ⟨5, 17⟩ ⟨.error (), false, 0⟩ ≠ .panicked :=
  lookup_never_panics 3
    { clients := [((5 : Int), ⟨[], (1, 2)⟩)], registered := {3, 5} }
    ⟨5, 17⟩ ⟨.error (), false, 0⟩ ⟨by decide, by decide⟩ (by decide) (by decide)

/-- C6 — For every descriptor registered via `Epoll::add`, the tag
stored with the kernel is the descriptor's raw numeric value cast to
`u64` (`fd.as_raw_fd() as u64`), and the descriptor recovered by
`Epoll::wait` from that tag (`e.u64 as RawFd`) equals the original
descriptor verbatim, for every value of the `i32` descriptor type. -/
theorem fd_tag_roundtrip (fd : Int) (hlo : -(2 : Int) ^ 31 ≤ fd)
    (hhi : fd < 2 ^ 31) : u64AsI32 (i32AsU64 fd) = fd := by
  unfold u64AsI32 i32AsU64
  split <;> omega

/-- Witness for `fd_tag_roundtrip` at the concrete descriptor 7. -/
theorem fd_tag_roundtrip_witness :
    -(2 : Int) ^ 31 ≤ 7 ∧ (7 : Int) < 2 ^ 31 ∧ u64AsI32 (i32AsU64 7) = 7 :=
  ⟨by norm_num, by norm_num,
    fd_tag_roundtrip 7 (by norm_num) (by norm_num)⟩

/-- C7 — For a `wait` whose underlying `epoll_wait` succeeds on the
1024-slot buffer: if no descriptor became ready before the timeout the
kernel reports zero filled slots and `wait` returns a successful empty
batch (not an error); and in every successful case the returned batch
holds at most 1024 events, the fixed capacity of the reusable buffer. -/
theorem wait_timeout_empty_and_bounded (eventLen : Nat)
    (buf : List RawEpollEvent) (hbuf : buf.length = waitBufferCap) :
    (eventLen = 0 → Epoll.wait (.ok (eventLen, buf)) = .ok []) ∧
    ∀ evs, Epoll.wait (.ok (eventLen, buf)) = .ok evs →
      evs.length ≤ waitBufferCap := by
  constructor
  · rintro rfl
    simp [Epoll.wait]
  · intro evs h
    simp only [Epoll.wait] at h
    cases h
    rw [List.length_map, List.length_take]
    simp only [waitBufferCap] at hbuf ⊢
    omega

/-- Witness for `wait_timeout_empty_and_bounded` on a zeroed 1024-slot
buffer with a timed-out (zero-event) kernel result. -/
theorem wait_timeout_empty_and_bounded_witness :
    (List.replicate 1024 (⟨0, 0⟩ : RawEpollEvent)).length = waitBufferCap ∧
    Epoll.wait (.ok (0, List.replicate 1024 (⟨0, 0⟩ : RawEpollEvent))) =
      .ok [] :=
  ⟨by rw [List.length_replicate]; rfl,
    (wait_timeout_empty_and_bounded 0 _
      (by rw [List.length_replicate]; rfl)).1 rfl⟩

/-- C8 — Decoding a kernel-supplied 32-bit flags word with
`EventFlags::from_bits_truncate` is total (it never rejects an input)
and bit-exact on the documented vocabulary: bit `i` is set in the
decoded `ReadinessSet` exactly when it is set in the input word and is
one of the documented flag bits — unknown bits are truncated away. -/
theorem from_bits_truncate_exact (w i : Nat) :
    (from_bits_truncate w).testBit i = (w.testBit i && allFlags.testBit i) := by
  simp [from_bits_truncate, Nat.testBit_land]

/-- C2 (counterexample to the claim as stated) — A connection whose
stream holds exactly the four bytes of `"ping"` gets a readable event;
the single bounded read returns those 4 bytes, yet the read collaborator
is handed the whole 1024-byte buffer (the 4 bytes zero-padded to 1024),
not exactly the reported bytes: `client.stream.read(&mut buffer)?;`
discards the byte count and the entire buffer is printed. -/
theorem read_delivers_whole_buffer_cex :
    loopBody 3
      { clients := [((5 : Int), ⟨[112, 105, 110, 103], (1, 2)⟩)],
        registered := {3, 5} }
      ⟨5, EPOLLIN⟩ ⟨.ok (0, (0, 0), []), false, 4⟩ =
      .ok ({ clients := [((5 : Int), ⟨[], (1, 2)⟩)], registered := {3, 5} },
        [Action.delivered 5 ([112, 105, 110, 103] ++ List.replicate 1020 0)]) ∧
    ([112, 105, 110, 103] ++ List.replicate 1020 0 : List Nat) ≠
      [112, 105, 110, 103] :=
  ⟨rfl, by decide⟩

/-- C2 (amended) — For every readable event on a connection that the
loop body completes normally, the read collaborator is handed exactly
the full fresh 1024-byte buffer after one bounded read: the `n ≤ 1024`
bytes that read returned (a prefix of that connection's own stream)
followed by the remaining `1024 − n` untouched zero bytes; no other
delivery happens for that event, and the read's byte count itself is
not forwarded. -/
theorem read_delivery_padded (l : Int) (s : LoopState) (ev : Event)
    (o : Oracle) (c : ClientData) (s' : LoopState) (tr : List Action)
    (hne : ev.fd ≠ l) (hin : containsFlag ev.flags EPOLLIN = true)
    (hc : lookupKey s.clients ev.fd = some c)
    (hok : loopBody l s ev o = .ok (s', tr)) :
    ∃ n, n ≤ 1024 ∧ n ≤ c.incoming.length ∧
      tr.head? = some (Action.delivered ev.fd
        (c.incoming.take n ++ List.replicate (1024 - n) 0)) ∧
      ∀ fd bytes, Action.delivered fd bytes ∈ tr →
        fd = ev.fd ∧
        bytes = c.incoming.take n ++ List.replicate (1024 - n) 0 := by
  unfold loopBody at hok
  rw [if_neg hne] at hok
  cases hr : readBranch s ev o with
  | fatalErr => simp only [hr] at hok; cases hok
  | panicked => simp only [hr] at hok; cases hok
  | ok p =>
    obtain ⟨s1, tr1⟩ := p
    simp only [hr] at hok
    rcases readBranch_ok hr with ⟨hnoin, _, _⟩ | ⟨c', _, hc', _, _, rfl⟩
    · rw [hin] at hnoin; cases hnoin
    · have hcc : c = c' := Option.some.inj (hc.symm.trans hc')
      subst hcc
      refine ⟨readCount o c, by unfold readCount; omega,
        by unfold readCount; omega, ?_, ?_⟩
      · rcases hupBranch_ok hok with ⟨_, _, rfl⟩ | ⟨_, _, _, _, rfl⟩ <;> rfl
      · intro fd bytes hmem
        rcases hupBranch_ok hok with ⟨_, _, rfl⟩ | ⟨_, _, _, _, rfl⟩
        · simp only [List.mem_singleton] at hmem
          cases hmem
          exact ⟨rfl, rfl⟩
        · simp only [List.singleton_append, List.mem_cons,
            List.not_mem_nil, or_false] at hmem
          rcases hmem with hmem | hmem
          · cases hmem; exact ⟨rfl, rfl⟩
          · cases hmem

/-- Witness for `read_delivery_padded` on the `"ping"` scenario. -/
theorem read_delivery_padded_witness :
    ∃ n, n ≤ 1024 ∧ n ≤ ([112, 105, 110, 103] : List Nat).length ∧
      ([Action.delivered (5 : Int)
          ([112, 105, 110, 103] ++ List.replicate 1020 0)] : List Action).head? =
        some (Action.delivered 5
          (([112, 105, 110, 103] : List Nat).take n ++
            List.replicate (1024 - n) 0)) ∧
      ∀ fd bytes,
        Action.delivered fd bytes ∈
          [Action.delivered (5 : Int)
            ([112, 105, 110, 103] ++ List.replicate 1020 0)] →
        fd = 5 ∧
        bytes = ([112, 105, 110, 103] : List Nat).take n ++
          List.replicate (1024 - n) 0 :=
  read_delivery_padded 3
    { clients := [((5 : Int), ⟨[112, 105, 110, 103], (1, 2)⟩)],
      registered := {3, 5} }
    ⟨5, EPOLLIN⟩ ⟨.ok (0, (0, 0), []), false, 4⟩
    ⟨[112, 105, 110, 103], (1, 2)⟩
    { clients := [((5 : Int), ⟨[], (1, 2)⟩)], registered := {3, 5} }
    [Action.delivered 5 ([112, 105, 110, 103] ++ List.replicate 1020 0)]
    (by decide) (by decide) (by rfl) (by rfl)

/-- C4 (counterexample to the claim as stated) — A readable event on
a connection whose stream is exhausted makes the single read signal
end-of-stream (0 bytes), yet the connection is NOT destroyed: the body
completes normally with the descriptor still in the table and still
registered.  Moreover a read I/O failure makes the loop terminate
fatally instead of tearing down that one connection. -/
theorem eof_no_teardown_cex :
    loopBody 3 { clients := [((5 : Int), ⟨[], (1, 2)⟩)], registered := {3, 5} }
      ⟨5, EPOLLIN⟩ ⟨.ok (0, (0, 0), []), false, 0⟩ =
      .ok ({ clients := [((5 : Int), ⟨[], (1, 2)⟩)], registered := {3, 5} },
        [Action.delivered 5 (List.replicate 1024 0)]) ∧
    lookupKey [((5 : Int), ⟨[], (1, 2)⟩)] 5 = some ⟨[], (1, 2)⟩ ∧
    (5 : Int) ∈ ({3, 5} : Finset Int) ∧
    loopBody 3 { clients := [((5 : Int), ⟨[], (1, 2)⟩)], registered := {3, 5} }
      ⟨5, EPOLLIN⟩ ⟨.ok (0, (0, 0), []), true, 0⟩ = .fatalErr :=
  ⟨rfl, rfl, by decide, rfl⟩

/-- C4 (amended) — A tracked connection is destroyed (removed from
the table and unregistered from the Multiplexer, which drops and closes
the handle) exactly when a hangup or peer-half-close flag is observed on
its event.  A normally completing event without such a flag — including
one whose read returns end-of-stream — leaves the table keys and the
registered set unchanged; and a normally completing readable event on a
tracked connection implies the read did not fail (a failing read never
reaches teardown: it terminates the loop fatally). -/
theorem teardown_iff_hangup (l : Int) (s : LoopState) (ev : Event)
    (o : Oracle) (s' : LoopState) (tr : List Action) (hne : ev.fd ≠ l)
    (hok : loopBody l s ev o = .ok (s', tr)) :
    (hangupFlag ev.flags = true →
      ev.fd ∉ keysFinset s'.clients ∧ ev.fd ∉ s'.registered) ∧
    (hangupFlag ev.flags = false →
      keysFinset s'.clients = keysFinset s.clients ∧
      s'.registered = s.registered) ∧
    (containsFlag ev.flags EPOLLIN = true →
      (∃ c, lookupKey s.clients ev.fd = some c) → o.readErr = false) := by
  unfold loopBody at hok
  rw [if_neg hne] at hok
  cases hr : readBranch s ev o with
  | fatalErr => simp only [hr] at hok; cases hok
  | panicked => simp only [hr] at hok; cases hok
  | ok p =>
    obtain ⟨s1, tr1⟩ := p
    simp only [hr] at hok
    obtain ⟨hk1, hr1⟩ := readBranch_ok_state hr
    have herr : containsFlag ev.flags EPOLLIN = true →
        (∃ c, lookupKey s.clients ev.fd = some c) → o.readErr = false := by
      intro hin _
      rcases readBranch_ok hr with ⟨hnoin, _, _⟩ | ⟨_, _, _, he, _, _⟩
      · rw [hin] at hnoin; cases hnoin
      · exact he
    rcases hupBranch_ok hok with ⟨hnohup, rfl, _⟩ | ⟨hhup, _, _, rfl, _⟩
    · refine ⟨?_, fun _ => ⟨hk1, hr1⟩, herr⟩
      intro htrue; rw [htrue] at hnohup; cases hnohup
    · refine ⟨?_, ?_, herr⟩
      · intro _
        constructor
        · show ev.fd ∉ keysFinset (eraseKey s1.clients ev.fd)
          rw [keys_eraseKey]
          exact Finset.not_mem_erase ev.fd (keysFinset s1.clients)
        · show ev.fd ∉ s1.registered.erase ev.fd
          exact Finset.not_mem_erase ev.fd s1.registered
      · intro hfalse; rw [hfalse] at hhup; cases hhup

/-- Witness for `teardown_iff_hangup`: a pure `EPOLLHUP` event (flags 16)
on a tracked connection removes it from table and registry. -/
theorem teardown_iff_hangup_witness :
    (hangupFlag 16 = true →
      (5 : Int) ∉ keysFinset ([] : List (Int × ClientData)) ∧
      (5 : Int) ∉ ({3, 5} : Finset Int).erase 5) ∧
    (hangupFlag 16 = false →
      keysFinset ([] : List (Int × ClientData)) =
        keysFinset [((5 : Int), (⟨[], (1, 2)⟩ : ClientData))] ∧
      ({3, 5} : Finset Int).erase 5 = {3, 5}) ∧
    (containsFlag 16 EPOLLIN = true →
      (∃ c, lookupKey [((5 : Int), (⟨[], (1, 2)⟩ : ClientData))] 5 = some c) →
      false = false) :=
  teardown_iff_hangup 3
    { clients := [((5 : Int), ⟨[], (1, 2)⟩)], registered := {3, 5} }
    ⟨5, 16⟩ ⟨.ok (0, (0, 0), []), false, 0⟩
    { clients := [], registered := ({3, 5} : Finset Int).erase 5 }
    [Action.teardown 5] (by decide) (by rfl)

/-- C10 — Two connections accepted in sequence by normally completing
listener events have distinct, non-aliased descriptors (the second
registration could only succeed on a descriptor not yet registered), the
table holds both entries with their own streams and peer addresses, and
a readable event on the first connection delivers bytes drawn only from
that connection's own stream plus the untouched zero fill of its fresh
buffer — never bytes of the other connection. -/
theorem distinct_fds_no_crosstalk (l : Int) (s0 s1 s2 s3 : LoopState)
    (o1 o2 o3 : Oracle) (tr1 tr2 tr3 : List Action) (fd1 fd2 : Int)
    (a1 a2 : Addr) (b1 b2 : List Nat) (f1 f2 : Nat)
    (hinv : tableRegistryInv l s0)
    (hacc1 : o1.acceptRes = .ok (fd1, a1, b1))
    (hb1 : loopBody l s0 ⟨l, f1⟩ o1 = .ok (s1, tr1))
    (hacc2 : o2.acceptRes = .ok (fd2, a2, b2))
    (hb2 : loopBody l s1 ⟨l, f2⟩ o2 = .ok (s2, tr2))
    (hrd : loopBody l s2 ⟨fd1, EPOLLIN⟩ o3 = .ok (s3, tr3)) :
    fd1 ≠ fd2 ∧
    lookupKey s2.clients fd1 = some ⟨b1, a1⟩ ∧
    lookupKey s2.clients fd2 = some ⟨b2, a2⟩ ∧
    ∃ n, n ≤ 1024 ∧
      tr3 = [Action.delivered fd1 (b1.take n ++ List.replicate (1024 - n) 0)] := by
  have hb1' : acceptBranch s0 o1 = .ok (s1, tr1) := by simpa [loopBody] using hb1
  obtain ⟨hreg1, hs1, _⟩ := acceptBranch_ok_of_res hacc1 hb1'
  have hb2' : acceptBranch s1 o2 = .ok (s2, tr2) := by simpa [loopBody] using hb2
  obtain ⟨hreg2, hs2, _⟩ := acceptBranch_ok_of_res hacc2 hb2'
  have hfd1s1 : fd1 ∈ s1.registered := by
    rw [hs1]; exact Finset.mem_insert_self fd1 s0.registered
  have hne12 : fd1 ≠ fd2 := fun h => hreg2 (h ▸ hfd1s1)
  have hl1 : fd1 ≠ l := fun h => hreg1 (h ▸ hinv.1)
  have hlk1 : lookupKey s2.clients fd1 = some ⟨b1, a1⟩ := by
    rw [hs2]
    show lookupKey (insertKey s1.clients fd2 ⟨b2, a2⟩) fd1 = some ⟨b1, a1⟩
    rw [lookupKey_insertKey_ne _ _ hne12, hs1]
    exact lookupKey_insertKey_self s0.clients fd1 ⟨b1, a1⟩
  have hlk2 : lookupKey s2.clients fd2 = some ⟨b2, a2⟩ := by
    rw [hs2]
    exact lookupKey_insertKey_self s1.clients fd2 ⟨b2, a2⟩
  refine ⟨hne12, hlk1, hlk2, ?_⟩
  unfold loopBody at hrd
  rw [if_neg hl1] at hrd
  cases hr : readBranch s2 ⟨fd1, EPOLLIN⟩ o3 with
  | fatalErr => simp only [hr] at hrd; cases hrd
  | panicked => simp only [hr] at hrd; cases hrd
  | ok p =>
    obtain ⟨sA, trA⟩ := p
    simp only [hr] at hrd
    rcases readBranch_ok hr with ⟨hnoin, _, _⟩ | ⟨c, _, hc, _, _, rfl⟩
    · have hnoin' : containsFlag EPOLLIN EPOLLIN = false := hnoin
      exact absurd hnoin' (by decide)
    · have hcc : (⟨b1, a1⟩ : ClientData) = c := by
        have hc' : lookupKey s2.clients fd1 = some c := hc
        exact Option.some.inj (hlk1.symm.trans hc')
      subst hcc
      rcases hupBranch_ok hrd with ⟨_, _, rfl⟩ | ⟨hhup, _, _, _, _⟩
      · exact ⟨readCount o3 ⟨b1, a1⟩, by unfold readCount; omega, rfl⟩
      · have hhup' : hangupFlag EPOLLIN = true := hhup
        exact absurd hhup' (by decide)

/-- Witness for `distinct_fds_no_crosstalk`: descriptors 4 and 5
accepted in turn, then a read on descriptor 4 delivering its one byte
`9` zero-padded. -/
theorem distinct_fds_no_crosstalk_witness :
    (4 : Int) ≠ 5 ∧
    lookupKey [((5 : Int), (⟨[8], (2, 2)⟩ : ClientData)),
      ((4 : Int), (⟨[9], (1, 1)⟩ : ClientData))] 4 = some ⟨[9], (1, 1)⟩ ∧
    lookupKey [((5 : Int), (⟨[8], (2, 2)⟩ : ClientData)),
      ((4 : Int), (⟨[9], (1, 1)⟩ : ClientData))] 5 = some ⟨[8], (2, 2)⟩ ∧
    ∃ n, n ≤ 1024 ∧
      [Action.delivered (4 : Int) ([9] ++ List.replicate 1023 0)] =
        [Action.delivered 4 (([9] : List Nat).take n ++
          List.replicate (1024 - n) 0)] :=
  distinct_fds_no_crosstalk 3
    { clients := [], registered := {3} }
    { clients := [((4 : Int), ⟨[9], (1, 1)⟩)], registered := insert 4 {3} }
    { clients := [((5 : Int), ⟨[8], (2, 2)⟩), ((4 : Int), ⟨[9], (1, 1)⟩)],
      registered := insert 5 (insert 4 {3}) }
    { clients := [((4 : Int), ⟨[], (1, 1)⟩), ((5 : Int), ⟨[8], (2, 2)⟩)],
      registered := insert 5 (insert 4 {3}) }
    ⟨.ok (4, (1, 1), [9]), false, 0⟩ ⟨.ok (5, (2, 2), [8]), false, 0⟩
    ⟨.error (), false, 1⟩
    [Action.accepted 4 (1, 1)] [Action.accepted 5 (2, 2)]
    [Action.delivered 4 ([9] ++ List.replicate 1023 0)]
    4 5 (1, 1) (2, 2) [9] [8] 1 1
    ⟨by decide, by decide⟩ rfl (by rfl) rfl (by rfl) (by rfl)
